import Mathlib

/-!
Shallow embedding of `job_search_agent_v_3.py` (the `droo_agents` repository):
the normalization / dedup / translate / enrich / rank / select pipeline, the
seen-store, the ATS status tracker and the persistence layer, together with
theorems settling the frozen claims about the natural-language specification.

Modelling conventions:
* Python floats are modelled by `ℚ`.  Every weight used by the scorer
  (3.0, 2.5, 1.5, 1.0, 10.0, 0.5, 0.8) is a decimal with one fractional
  digit; sums of subsets of these weights are spaced at least 0.1 apart in
  `ℚ`, while the corresponding IEEE-754 sums differ from them by at most a
  few ulps, so equality and order of scores agree between the two models.
* `datetime` values are a calendar date plus microseconds elapsed since
  midnight; `timedelta.days` is floored division by the microseconds of a
  day, exactly as in CPython.
* `datetime.fromisoformat` is modelled on the `YYYY-MM-DD` (date-only)
  subset of ISO-8601, which covers every string the program itself produces
  and feeds to it; other strings are modelled as parse failures.
* Python dicts are association lists; updating an existing key rewrites the
  value in place, a fresh key is appended at the end (insertion order).
* A dict key that is absent and a key whose value is `None` are conflated
  into `Option.none` wherever the program only ever reads the key through
  `dict.get` (signals of a job, metadata).
* `hashlib.sha256` is modelled as an injective function on strings (the
  ideal collision-resistant digest); only equality of digests is ever
  observed by the program.
-/

namespace JobAgent

/-! ### Characters and case-insensitive matching (the program's `re` uses) -/

/-- Lower-casing as used by case-insensitive regex matching; covers ASCII and
the Norwegian letters appearing in the program's fixed patterns. -/
def pyLower (c : Char) : Char :=
  if c = 'Å' then 'å' else if c = 'Ø' then 'ø' else if c = 'Æ' then 'æ'
  else c.toLower

def lowerList (s : List Char) : List Char := s.map pyLower

/-- Python regex `\w` (word character), restricted to the alphabets that can
occur around the program's fixed patterns: ASCII alphanumerics, underscore
and the Norwegian letters. -/
def isWordChar (c : Char) : Bool :=
  c.isAlphanum || c == '_' || c == 'å' || c == 'ø' || c == 'æ'
    || c == 'Å' || c == 'Ø' || c == 'Æ'

/-- Plain substring search on character lists (used for patterns without
word boundaries, e.g. `re.search(r"Norwegian", text)`). -/
def lcContains (p : List Char) : List Char → Bool
  | [] => p.isEmpty
  | c :: cs => p.isPrefixOf (c :: cs) || lcContains p cs

/-- `re.search(pat, text, re.IGNORECASE)` for a literal pattern. -/
def containsCI (pat text : String) : Bool :=
  lcContains (lowerList pat.toList) (lowerList text.toList)

/-- Does `p` occur at the head of `s` with a word boundary on each side,
`prev` being the character immediately before the head of `s`? -/
def boundaryOk (p : List Char) (prev : Option Char) (s : List Char) : Bool :=
  p.isPrefixOf s
    && (match prev with | none => true | some c => !isWordChar c)
    && (match s.drop p.length with | [] => true | c :: _ => !isWordChar c)

def wordSearchAux (p : List Char) : Option Char → List Char → Bool
  | prev, [] => boundaryOk p prev []
  | prev, c :: cs => boundaryOk p prev (c :: cs) || wordSearchAux p (some c) cs

/-- `re.search(rf"\b{pat}\b", text, re.IGNORECASE)` for a literal pattern
starting and ending in word characters (true of every pattern the program
wraps in word boundaries). -/
def containsWordCI (pat text : String) : Bool :=
  wordSearchAux (lowerList pat.toList) none (lowerList text.toList)

/-! ### Dates and times -/

def usPerDay : Int := 86400000000

def usPerHour : Int := 3600000000

structure Date where
  year : Int
  month : Int
  day : Int
deriving DecidableEq, Repr

def Date.isLeap (y : Int) : Bool := y % 4 == 0 && (y % 100 != 0 || y % 400 == 0)

def daysInMonth (y m : Int) : Int :=
  if m = 2 then (if Date.isLeap y then 29 else 28)
  else if m = 4 ∨ m = 6 ∨ m = 9 ∨ m = 11 then 30 else 31

def Date.valid (d : Date) : Bool :=
  1 ≤ d.year && d.year ≤ 9999 && 1 ≤ d.month && d.month ≤ 12
    && 1 ≤ d.day && d.day ≤ daysInMonth d.year d.month

/-- Day count of a proleptic-Gregorian date (epoch 1970-01-01); differences
of this count agree with differences of Python's `date.toordinal`. -/
def Date.toDays (d : Date) : Int :=
  let y : Int := if d.month ≤ 2 then d.year - 1 else d.year
  let era : Int := (if 0 ≤ y then y else y - 399).fdiv 400
  let yoe : Int := y - era * 400
  let mp : Int := (d.month + 9) % 12
  let doy : Int := (153 * mp + 2).fdiv 5 + d.day - 1
  let doe : Int := yoe * 365 + yoe.fdiv 4 - yoe.fdiv 100 + doy
  era * 146097 + doe - 719468

def digitVal (c : Char) : Int := (c.toNat : Int) - 48

/-- `datetime.fromisoformat` on the `YYYY-MM-DD` subset (see header notes). -/
def parseIsoDate (s : String) : Option Date :=
  match s.toList with
  | [y1, y2, y3, y4, '-', m1, m2, '-', d1, d2] =>
    if [y1, y2, y3, y4, m1, m2, d1, d2].all Char.isDigit then
      let d : Date :=
        ⟨digitVal y1 * 1000 + digitVal y2 * 100 + digitVal y3 * 10 + digitVal y4,
         digitVal m1 * 10 + digitVal m2,
         digitVal d1 * 10 + digitVal d2⟩
      if d.valid then some d else none
    else none
  | _ => none

/-- A Python `datetime`: calendar date plus microseconds since midnight. -/
structure DateTime where
  date : Date
  us : Int
deriving DecidableEq, Repr

def fromisoformat (s : String) : Option DateTime :=
  (parseIsoDate s).map (fun d => ⟨d, 0⟩)

def DateTime.toUs (t : DateTime) : Int := t.date.toDays * usPerDay + t.us

/-- `(a - b).days` for Python datetimes: floored division of the difference. -/
def tdDays (a b : DateTime) : Int := (a.toUs - b.toUs).fdiv usPerDay

def DateTime.hour (t : DateTime) : Int := t.us.fdiv usPerHour

def padNum (len : Nat) (n : Int) : String :=
  let s := toString n.toNat
  String.mk (List.replicate (len - s.length) '0') ++ s

/-- `strftime("%Y-%m-%d")`. -/
def Date.iso (d : Date) : String :=
  padNum 4 d.year ++ "-" ++ padNum 2 d.month ++ "-" ++ padNum 2 d.day

/-- `now_local_iso()` (the UTC-offset suffix is elided by the model; the
program only ever displays this string). -/
def now_local_iso (t : DateTime) : String :=
  let sec := t.us.fdiv 1000000
  t.date.iso ++ "T" ++ padNum 2 (sec.fdiv 3600) ++ ":"
    ++ padNum 2 ((sec % 3600).fdiv 60) ++ ":" ++ padNum 2 (sec % 60)

/-! ### Dicts and metadata -/

inductive MetaVal where
  | num (q : ℚ)
  | str (s : String)
deriving DecidableEq, Repr

def dictGet {β : Type} (l : List (String × β)) (k : String) : Option β :=
  (l.find? (fun p => p.1 == k)).map (·.2)

def dictSet {β : Type} (l : List (String × β)) (k : String) (v : β) :
    List (String × β) :=
  if l.any (fun p => p.1 == k) then
    l.map (fun p => if p.1 = k then (k, v) else p)
  else l ++ [(k, v)]

/-! ### Data model -/

structure RawJob where
  source : String
  source_job_id : String
  title : String
  company : String
  location : String
  post_date : String
  url : String
  description_raw : String
  lang_guess : Option String := none
  seniority_hint : Option String := none
  salary_raw : Option String := none
  employment_type : Option String := none
  source_meta : List (String × MetaVal) := []
deriving DecidableEq, Repr

structure Signals where
  keywords : List String
  language_req : List String
  company_type : Option String := none
  english_ok : Option Bool := none
deriving DecidableEq, Repr

structure Job where
  job_id : String
  title : String
  company : String
  location : String
  post_date : String
  age_days : Int
  url : String
  description_raw : String
  description_lang : String
  needs_translation : Bool
  description_en : Option String
  signals : Signals
  seniority : Option String
  source : String
  source_meta : List (String × MetaVal)
deriving DecidableEq, Repr

/-- `hashlib.sha256(...).hexdigest()`, modelled as an injective digest (see
header notes): only equality of digests is observable in the program. -/
def sha256 (s : String) : String := s

/-! ### Stage 2+: Normalize → Dedup → Translate → Enrich -/

def guess_lang (text : String) : String :=
  if ["å", "ø", "æ", "Norsk", "Norge"].any (fun w => containsWordCI w text) then
    "no"
  else "en"

def normalize_job (now : DateTime) (raw : RawJob) : Job :=
  let dt : DateTime :=
    match fromisoformat raw.post_date with
    | some t => t
    | none => now
  let age := tdDays now dt
  let lang :=
    match raw.lang_guess with
    | some s => if s = "" then guess_lang raw.description_raw else s
    | none => guess_lang raw.description_raw
  let needs_tx := lang ≠ "en"
  let job_id := sha256 (raw.source ++ ":" ++ raw.source_job_id)
  { job_id := job_id
    title := raw.title
    company := raw.company
    location := raw.location
    post_date := dt.date.iso
    age_days := age
    url := raw.url
    description_raw := raw.description_raw
    description_lang := lang
    needs_translation := needs_tx
    description_en := none
    signals := { keywords := [], language_req := [] }
    seniority := raw.seniority_hint
    source := raw.source
    source_meta := raw.source_meta }

def keywordVocab : List String :=
  ["GenAI", "LLM", "SaaS", "B2B", "SQL", "analytics", "roadmap", "Norwegian", "English"]

def extract_signals (job : Job) : Job :=
  let text :=
    match job.description_en with
    | some s => if s = "" then job.description_raw else s
    | none => job.description_raw
  let keys := keywordVocab.filter (fun k => containsWordCI k text)
  let lr := job.signals.language_req
  let lr := if containsCI "Norwegian" text then lr ++ ["Norwegian"] else lr
  let lr := if containsCI "English" text then lr ++ ["English"] else lr
  { job with signals := { job.signals with keywords := keys, language_req := lr } }

def stage_normalize (now : DateTime) (raws : List RawJob) :
    List Job × List String :=
  let jobs := raws.map (normalize_job now)
  (jobs, ["[LOG][Dhruva][Normalize] in=" ++ toString raws.length ++ " out="
      ++ toString jobs.length ++ " dedup_keys_ready=true"])

def dedupGo (seen : List String) : List Job → List Job
  | [] => []
  | j :: rest =>
    if j.job_id ∈ seen then dedupGo seen rest
    else j :: dedupGo (j.job_id :: seen) rest

def stage_dedup (jobs : List Job) : List Job × List String :=
  let unique := dedupGo [] jobs
  (unique, ["[LOG][Dhruva][Dedup] before=" ++ toString jobs.length ++ " after="
      ++ toString unique.length ++ " merged_pairs="
      ++ toString (jobs.length - unique.length)])

def translate_to_en (text source_lang : String) : String × ℚ :=
  if source_lang = "en" then (text, 1)
  else ("[AUTO-TRANSLATED from " ++ source_lang ++ "] " ++ text, 0.6)

def translate_job (j : Job) : Job :=
  if j.needs_translation then
    let tc := translate_to_en j.description_raw j.description_lang
    extract_signals
      { j with description_en := some tc.1
               source_meta := dictSet j.source_meta "translation_confidence" (.num tc.2) }
  else
    extract_signals
      { j with description_en := some j.description_raw
               source_meta := dictSet j.source_meta "translation_confidence" (.num 1) }

def stage_translate (jobs : List Job) : List Job × List String :=
  let out := jobs.map translate_job
  let count := (jobs.filter (·.needs_translation)).length
  let avg := ((jobs.map (fun x => (x.description_raw.length : Int))).sum).fdiv
      (max 1 (jobs.length : Int))
  (out, ["[LOG][Dhruva][Translate] translated=" ++ toString count
      ++ " avg_chars=" ++ toString avg])

def classify_company_type (name : String) : String :=
  if ["Skatteetaten", "Municipal", "Directorate", "Agency"].any
      (fun p => containsCI p name) then "government"
  else "private"

def infer_english_ok (job : Job) : Option Bool :=
  if "Norwegian" ∈ job.signals.language_req then some false
  else if "English" ∈ job.signals.language_req then some true
  else none

def enrich_job (j : Job) : Job :=
  { j with signals :=
      { j.signals with
        company_type := some (classify_company_type j.company)
        english_ok := infer_english_ok j } }

def stage_enrich (jobs : List Job) : List Job × List String :=
  let out := jobs.map enrich_job
  let eok := (out.filter (fun j => j.signals.english_ok = some true)).length
  let nreq := (out.filter (fun j => j.signals.english_ok = some false)).length
  (out, ["[LOG][Dhruva][Enrich] enriched=" ++ toString jobs.length
      ++ " flags=\x7benglish_ok:" ++ toString eok ++ ", norwegian_required:"
      ++ toString nreq ++ "\x7d"])

/-! ### Stage: Rank and Select -/

def match_any (text : String) (arr : List String) : Bool :=
  arr.any (fun x => containsWordCI x text)

def seniorityMatch : Option String → Bool
  | none => false
  | some s => s ≠ "" && (containsCI "Senior" s || containsCI "Lead" s)

/-- The accumulation inside `score_job` (the running `score` and `reasons`
variables) before the final floor and the 3-entry cap on reasons.  Each
conditional `score += w; reasons.append(x)` of the source is written as
adding `if cond then w else 0` and appending `if cond then [x] else []`. -/
def score_core (j : Job) (skip_companies priority_companies : List String) :
    ℚ × List String :=
  let kws := j.signals.keywords
  let s1 : ℚ := 0 + (if match_any j.title ["Product Manager", "Senior Product Manager", "Product Owner"] then 3 else 0)
  let r1 : List String := [] ++ (if match_any j.title ["Product Manager", "Senior Product Manager", "Product Owner"] then ["Title match"] else [])
  let s2 := s1 + (if "B2B" ∈ kws ∨ "SaaS" ∈ kws then 2.5 else 0)
  let r2 := r1 ++ (if "B2B" ∈ kws ∨ "SaaS" ∈ kws then ["B2B/SaaS"] else [])
  let s3 := s2 + (if j.signals.english_ok = some true then 1.5 else 0)
  let r3 := r2 ++ (if j.signals.english_ok = some true then ["English OK"] else [])
  let s4 := s3 + (if seniorityMatch j.seniority then 1 else 0)
  let r4 := r3 ++ (if seniorityMatch j.seniority then ["Sr/Lead"] else [])
  let s5 := s4 + (if ["LLM", "GenAI", "SQL", "analytics", "roadmap"].any (· ∈ kws) then 1 else 0)
  let r5 := r4 ++ (if ["LLM", "GenAI", "SQL", "analytics", "roadmap"].any (· ∈ kws) then ["Key skills"] else [])
  let s6 := s5 - (if j.company ∈ skip_companies then 10 else 0)
  let r6 := r5 ++ (if j.company ∈ skip_companies then ["SKIP company"] else [])
  let s7 := s6 + (if j.company ∈ priority_companies then 0.5 else 0)
  let r7 := r6 ++ (if j.company ∈ priority_companies then ["Priority company"] else [])
  let s8 := s7 + (if j.age_days ≤ 3 then 1.5 else if j.age_days ≤ 7 then 0.8 else 0)
  let r8 := r7 ++ (if j.age_days ≤ 3 then ["Fresh"] else if j.age_days ≤ 7 then ["Recent"] else [])
  (s8, r8)

def score_job (j : Job) (skip_companies priority_companies : List String) :
    ℚ × List String :=
  let acc := score_core j skip_companies priority_companies
  (max 0 acc.1, acc.2.take 3)

structure RankedEntry where
  job_id : String
  company : String
  title : String
  location : String
  post_date : String
  url : String
  score : ℚ
  reasons : List String
  english_ok : Option Bool
  keywords : List String
  age_days : Int
  source : String
  is_new : Option Bool := none
deriving DecidableEq, Repr

structure Prefs where
  city_whitelist : List String := ["Oslo", "Lysaker"]
  skip_companies : List String := ["Skatteetaten"]
  priority_companies : List String := []
deriving DecidableEq, Repr

/-- Python's `round(q, 2)`; the rounding convention at a half never fires in
the program because every score is a multiple of 1/10 (proved below). -/
def round2 (q : ℚ) : ℚ := round (q * 100) / 100

def toRankedEntry (x : Job × ℚ × List String) : RankedEntry :=
  { job_id := x.1.job_id
    company := x.1.company
    title := x.1.title
    location := x.1.location
    post_date := x.1.post_date
    url := x.1.url
    score := round2 x.2.1
    reasons := x.2.2
    english_ok := x.1.signals.english_ok
    keywords := x.1.signals.keywords
    age_days := x.1.age_days
    source := x.1.source }

/-- The comparison realized by `scored.sort(key=lambda x: (x[1], x[0].post_date),
reverse=True)`: descending lexicographic order on (score, posted date). -/
def rankRel (a b : Job × ℚ × List String) : Prop :=
  toLex (b.2.1, b.1.post_date) ≤ toLex (a.2.1, a.1.post_date)

instance : DecidableRel rankRel := fun a b =>
  inferInstanceAs (Decidable (toLex (b.2.1, b.1.post_date) ≤ toLex (a.2.1, a.1.post_date)))

instance : IsTotal (Job × ℚ × List String) rankRel :=
  ⟨fun a b => le_total (toLex (b.2.1, b.1.post_date)) (toLex (a.2.1, a.1.post_date))⟩

instance : IsTrans (Job × ℚ × List String) rankRel :=
  ⟨fun _ _ _ h h' => le_trans h' h⟩

def stage_rank (jobs : List Job) (prefs : Prefs) :
    List RankedEntry × List String :=
  let scored := jobs.map (fun j =>
    (j, score_job j prefs.skip_companies prefs.priority_companies))
  let sorted := scored.insertionSort rankRel
  let ranked := sorted.map toRankedEntry
  let top1 :=
    match ranked with
    | [] => "None"
    | r :: _ => r.company ++ " – " ++ r.title
  (ranked, ["[LOG][Dhruva][Rank] ranked=" ++ toString ranked.length
      ++ " top1=\"" ++ top1 ++ "\""])

def stage_select (ranked : List RankedEntry) (top_n : Nat) :
    List RankedEntry × List String :=
  let final := ranked.take top_n
  let new_today := (final.filter (fun x => x.age_days = 0)).length
  (final, ["[LOG][Dhruva][Select] final_count=" ++ toString final.length
      ++ " new_today=" ++ toString new_today ++ " existing="
      ++ toString (final.length - new_today)])

/-! ### Seen-store, ATS, CSV export -/

structure SeenRec where
  first_seen : String
  last_seen : String
  url : String
  company : String
  title : String
deriving DecidableEq, Repr

abbrev SeenStore := List (String × SeenRec)

def seenStep (today : String) (acc : SeenStore × List (String × Bool))
    (j : RankedEntry) : SeenStore × List (String × Bool) :=
  match dictGet acc.1 j.job_id with
  | none =>
    (dictSet acc.1 j.job_id
        { first_seen := today, last_seen := today, url := j.url,
          company := j.company, title := j.title },
      dictSet acc.2 j.job_id true)
  | some r =>
    (dictSet acc.1 j.job_id { r with last_seen := today },
      dictSet acc.2 j.job_id false)

def update_seen_store (today : String) (all_ranked : List RankedEntry)
    (seen : SeenStore) : SeenStore × List (String × Bool) :=
  all_ranked.foldl (seenStep today) (seen, [])

structure HistEntry where
  date : String
  action : String
  status : Option String := none
  fromStatus : Option String := none
  toStatus : Option String := none
deriving DecidableEq, Repr

structure AtsRec where
  company : String
  title : String
  url : String
  status : String
  notes : String
  history : List HistEntry
deriving DecidableEq, Repr

structure Ats where
  records : List (String × AtsRec)
deriving DecidableEq, Repr

def ats_touch (now : String) (ats : Ats) (job : RankedEntry)
    (default_status : String := "discovered") (note : String := "") : Ats :=
  match dictGet ats.records job.job_id with
  | some _ => ats
  | none =>
    { records := dictSet ats.records job.job_id
        { company := job.company, title := job.title, url := job.url,
          status := default_status, notes := note,
          history := [{ date := now, action := "create", status := some default_status }] } }

structure CsvRow where
  job_id : String
  company : String
  title : String
  location : String
  post_date : String
  score : ℚ
  reasons : String
  url : String
  source : String
deriving DecidableEq, Repr

def csvRow (r : RankedEntry) : CsvRow :=
  { job_id := r.job_id, company := r.company, title := r.title,
    location := r.location, post_date := r.post_date, score := r.score,
    reasons := String.intercalate "; " r.reasons, url := r.url,
    source := r.source }

/-! ### Orchestration and persistence -/

def QUIET_AFTER_HOUR : Int := 11

structure Snapshot where
  run_id : String
  generated_at : String
  stats_final : Nat
  stats_new_today : Nat
  jobs : List RankedEntry
  logs : List String
deriving DecidableEq, Repr

/-- The files the program reads and writes: daily JSON snapshots and CSV
exports keyed by their filename-encoded date, plus the two state stores. -/
structure FS where
  snapshots : List (String × Snapshot)
  csvs : List (String × List CsvRow)
  seenFile : SeenStore
  atsFile : Ats
deriving DecidableEq, Repr

/-- `prune_old_logs`: keep a daily artifact unless its filename-encoded date
parses and is at least `keep_days` old. -/
def pruneKeep (today : Date) (keep_days : Int) (k : String) : Bool :=
  match parseIsoDate k with
  | some d => today.toDays - d.toDays < keep_days
  | none => true

def run_pipeline (now : DateTime) (fetched : List RawJob × List String)
    (prefs : Prefs) (top_n : Nat) :
    List RankedEntry × List String × List RankedEntry :=
  if QUIET_AFTER_HOUR ≤ now.hour then
    ([], ["[LOG][Dhruva][Guard] skipped – quiet window"], [])
  else
    let raws := fetched.1
    let n1 := stage_normalize now raws
    let n2 := stage_dedup n1.1
    let n3 := stage_translate n2.1
    let n4 := stage_enrich n3.1
    let n5 := stage_rank n4.1 prefs
    let n6 := stage_select n5.1 top_n
    let final := n6.1
    let medianStr :=
      match final with
      | [] => "None"
      | _ =>
        toString (((final.map (·.age_days)).insertionSort (· ≤ ·)).getD
          (final.length / 2) 0)
    let rollupLine :=
      "[LOG][Dhruva][Rollup] fetched=" ++ toString raws.length
        ++ " unique=" ++ toString n4.1.length
        ++ " final=" ++ toString final.length
        ++ " median_age=" ++ medianStr
        ++ " english_ok=" ++ toString (final.filter (fun j => j.english_ok = some true)).length
        ++ " genai_hits=" ++ toString (final.filter (fun j =>
              ["GenAI", "LLM"].any (· ∈ j.keywords))).length
        ++ " errors=0"
    (final,
      fetched.2 ++ n1.2 ++ n2.2 ++ n3.2 ++ n4.2 ++ n5.2 ++ n6.2 ++ [rollupLine],
      n5.1)

def persist_outputs (now : DateTime) (final ranked : List RankedEntry)
    (logs : List String) (fs : FS) : FS :=
  let date_str := now.date.iso
  let upd := update_seen_store date_str ranked fs.seenFile
  let finalTagged := final.map (fun j =>
    { j with is_new := some ((dictGet upd.2 j.job_id).getD false) })
  let ats := finalTagged.foldl (fun a j => ats_touch (now_local_iso now) a j) fs.atsFile
  let payload : Snapshot :=
    { run_id := date_str
      generated_at := now_local_iso now
      stats_final := finalTagged.length
      stats_new_today := (finalTagged.filter (fun x => x.is_new = some true)).length
      jobs := finalTagged
      logs := logs }
  { snapshots := dictSet (fs.snapshots.filter (fun p => pruneKeep now.date 7 p.1))
      date_str payload
    csvs := dictSet (fs.csvs.filter (fun p => pruneKeep now.date 7 p.1))
      date_str (finalTagged.map csvRow)
    seenFile := upd.1
    atsFile := ats }

def cmd_run (now : DateTime) (fetched : List RawJob × List String)
    (prefs : Prefs) (top_n : Nat) (fs : FS) : FS :=
  let out := run_pipeline now fetched prefs top_n
  persist_outputs now out.1 out.2.2 out.2.1 fs

/-- `cmd_mark`: `.error` means the message is printed and the function
returns before any write; `.ok` carries the store subsequently written. -/
def cmd_mark (now : String) (ats : Ats) (job_id status : String)
    (note : Option String) : Except String Ats :=
  match dictGet ats.records job_id with
  | none => .error "Job ID not found in ATS records. Tip: copy job_id from CSV/JSON."
  | some r =>
    let before := r.status
    let r := { r with status := status }
    let r :=
      match note with
      | some n =>
        if n ≠ "" then
          { r with notes := r.notes ++ (if r.notes ≠ "" then "\n" else "") ++ n }
        else r
      | none => r
    let r := { r with history := r.history ++
        [{ date := now, action := "status_change",
           fromStatus := some before, toStatus := some status }] }
    .ok { ats with records := dictSet ats.records job_id r }


/-! ### Derived helper definitions used in the specifications -/

/-- `q` is an integer number of tenths; every score the program can compute
satisfies this, which is why Python's `round(s, 2)` is the identity on
scores. -/
def tenths (q : ℚ) : Prop := ∃ k : ℤ, q = k / 10

/-- The effective description text scanned by `extract_signals`
(`job.description_en or job.description_raw`). -/
def effText (j : Job) : String :=
  match j.description_en with
  | some s => if s = "" then j.description_raw else s
  | none => j.description_raw

/-- The language-requirement markers `extract_signals` appends for a text. -/
def extractFired (t : String) : List String :=
  (if containsCI "Norwegian" t then ["Norwegian"] else [])
    ++ (if containsCI "English" t then ["English"] else [])

/-- The value `stage_translate` stores into `description_en`. -/
def effDesc (j : Job) : String :=
  if j.needs_translation then (translate_to_en j.description_raw j.description_lang).1
  else j.description_raw

/-- The effective text seen by `extract_signals` right after translation. -/
def postText (j : Job) : String :=
  if effDesc j = "" then j.description_raw else effDesc j

/-! ### Concrete inputs used by counterexamples and witnesses -/

def cNow : DateTime := ⟨⟨2025, 10, 12⟩, 0⟩

def cRawFuture : RawJob :=
  { source := "linkedin", source_job_id := "lnk-001", title := "T", company := "C",
    location := "Oslo, NO", post_date := "2025-10-13", url := "u",
    description_raw := "d", lang_guess := some "en" }

def cRawAcme : RawJob :=
  { source := "linkedin", source_job_id := "x1", title := "Product Manager",
    company := "Acme", location := "Oslo, NO", post_date := "2025-10-01",
    url := "u", description_raw := "Own the SQL reporting stack.",
    lang_guess := some "en", seniority_hint := some "Senior" }

def cJobAcme : Job := enrich_job (translate_job (normalize_job cNow cRawAcme))

def cRawNorw : RawJob :=
  { source := "linkedin", source_job_id := "x2", title := "Product Manager",
    company := "C", location := "Oslo, NO", post_date := "2025-10-10",
    url := "u", description_raw := "Norwegian skills required." }

def cJobNorw : Job := enrich_job (translate_job (normalize_job cNow cRawNorw))

def cRawNorsk : RawJob :=
  { source := "finn", source_job_id := "x3", title := "Produktleder",
    company := "C", location := "Oslo, NO", post_date := "2025-10-10",
    url := "u", description_raw := "Norwegian language required. Norsk." }

def cRawColonA : RawJob :=
  { source := "a:b", source_job_id := "c", title := "T", company := "K",
    location := "L", post_date := "2025-10-10", url := "u1",
    description_raw := "", lang_guess := some "en" }

def cRawColonB : RawJob :=
  { source := "a", source_job_id := "b:c", title := "T", company := "K",
    location := "L", post_date := "2025-10-10", url := "u2",
    description_raw := "", lang_guess := some "en" }

def wRankedNew : RankedEntry :=
  { job_id := "fresh", company := "Co", title := "T", location := "Oslo",
    post_date := "2025-10-11", url := "u", score := 0, reasons := [],
    english_ok := none, keywords := [], age_days := 1, source := "finn" }

def wSeenOld : SeenRec :=
  { first_seen := "2025-09-01", last_seen := "2025-10-01", url := "u0",
    company := "Old", title := "OldT" }

def wSeenStore : SeenStore := [("old", wSeenOld)]

def wNowQuiet : DateTime := ⟨⟨2025, 10, 12⟩, 12 * usPerHour⟩

def wFsEmpty : FS := { snapshots := [], csvs := [], seenFile := [], atsFile := { records := [] } }

/-! ### Helper lemmas: dict operations -/

theorem dictGet_cons {β : Type} (p : String × β) (l : List (String × β)) (k : String) :
    dictGet (p :: l) k = if p.1 = k then some p.2 else dictGet l k := by
  by_cases h : p.1 = k <;> simp [dictGet, List.find?_cons, h]

theorem dictGet_map_set_ne {β : Type} (l : List (String × β)) (k k' : String) (v : β)
    (h : k ≠ k') :
    dictGet (l.map (fun p => if p.1 = k then (k, v) else p)) k' = dictGet l k' := by
  induction l with
  | nil => rfl
  | cons p t ih =>
    by_cases hp : p.1 = k
    · simp only [List.map_cons, if_pos hp]
      rw [dictGet_cons, dictGet_cons, ih]
      simp [hp, h]
    · simp only [List.map_cons, if_neg hp]
      rw [dictGet_cons, dictGet_cons, ih]

theorem dictGet_map_set_self {β : Type} (l : List (String × β)) (k : String) (v : β)
    (hany : l.any (fun p => p.1 == k) = true) :
    dictGet (l.map (fun p => if p.1 = k then (k, v) else p)) k = some v := by
  induction l with
  | nil => simp at hany
  | cons p t ih =>
    by_cases hp : p.1 = k
    · simp only [List.map_cons, if_pos hp]
      rw [dictGet_cons, if_pos rfl]
    · simp only [List.map_cons, if_neg hp]
      rw [dictGet_cons, if_neg hp]
      apply ih
      simpa [hp] using hany

theorem dictGet_append_pair_ne {β : Type} (l : List (String × β)) (k k' : String) (v : β)
    (h : k ≠ k') :
    dictGet (l ++ [(k, v)]) k' = dictGet l k' := by
  induction l with
  | nil =>
    rw [List.nil_append, dictGet_cons, if_neg h]
  | cons p t ih =>
    rw [List.cons_append, dictGet_cons, dictGet_cons, ih]

theorem dictGet_append_pair_self {β : Type} (l : List (String × β)) (k : String) (v : β)
    (hnone : l.any (fun p => p.1 == k) = false) :
    dictGet (l ++ [(k, v)]) k = some v := by
  induction l with
  | nil =>
    rw [List.nil_append, dictGet_cons, if_pos rfl]
  | cons p t ih =>
    have h1 := hnone
    simp only [List.any_cons, Bool.or_eq_false_iff] at h1
    rw [List.cons_append, dictGet_cons, if_neg (by simpa using h1.1)]
    exact ih h1.2

theorem dictGet_dictSet {β : Type} (l : List (String × β)) (k k' : String) (v : β) :
    dictGet (dictSet l k v) k' = if k = k' then some v else dictGet l k' := by
  unfold dictSet
  by_cases hany : l.any (fun p => p.1 == k) = true
  · rw [if_pos hany]
    by_cases hk : k = k'
    · subst hk; rw [if_pos rfl]; exact dictGet_map_set_self l k v hany
    · rw [if_neg hk]; exact dictGet_map_set_ne l k k' v hk
  · rw [if_neg hany]
    by_cases hk : k = k'
    · subst hk; rw [if_pos rfl]
      exact dictGet_append_pair_self l k v (Bool.eq_false_iff.mpr hany)
    · rw [if_neg hk]; exact dictGet_append_pair_ne l k k' v hk

/-! ### Claim C3: unknown job id on `mark` is rejected, store untouched -/

/-- C3: requesting a status transition for a `jobID` absent from the status
store is rejected with the "not found" error (so nothing is written and the
store is unmodified), and conversely a transition can only succeed when a
record for that `jobID` already exists. -/
theorem cmd_mark_unknown_id_rejected (now : String) (ats : Ats)
    (job_id status : String) (note : Option String) :
    (dictGet ats.records job_id = none →
      cmd_mark now ats job_id status note =
        .error "Job ID not found in ATS records. Tip: copy job_id from CSV/JSON.")
    ∧ (∀ ats', cmd_mark now ats job_id status note = .ok ats' →
        ∃ r, dictGet ats.records job_id = some r) := by
  constructor
  · intro h
    simp [cmd_mark, h]
  · intro ats' h
    unfold cmd_mark at h
    cases hg : dictGet ats.records job_id with
    | none => rw [hg] at h; exact absurd h (by simp)
    | some r => exact ⟨r, rfl⟩

theorem cmd_mark_unknown_id_rejected_witness :
    cmd_mark "2025-10-12T09:00:00" { records := [] } "deadbeef" "applied" none =
      .error "Job ID not found in ATS records. Tip: copy job_id from CSV/JSON." :=
  (cmd_mark_unknown_id_rejected "2025-10-12T09:00:00" { records := [] }
    "deadbeef" "applied" none).1 rfl

/-! ### Claim C9: translation never alters title/company -/

theorem translate_job_preserves (j : Job) :
    (translate_job j).title = j.title ∧ (translate_job j).company = j.company := by
  by_cases h : j.needs_translation <;> simp [translate_job, extract_signals, h]

/-- C9: for every Job, `title` and `company` after the Translate stage equal
their values before it, whether or not the job needed translation. -/
theorem stage_translate_preserves_title_company (jobs : List Job) :
    (∀ j, (translate_job j).title = j.title ∧ (translate_job j).company = j.company)
    ∧ (stage_translate jobs).1.map (fun j => (j.title, j.company))
        = jobs.map (fun j => (j.title, j.company)) := by
  refine ⟨translate_job_preserves, ?_⟩
  simp only [stage_translate, List.map_map]
  apply List.map_congr_left
  intro j _
  simp [(translate_job_preserves j).1, (translate_job_preserves j).2]

/-! ### Claim C1: age computation in `normalize_job` -/

theorem tdDays_date (now : DateTime) (d : Date)
    (h0 : 0 ≤ now.us) (h1 : now.us < usPerDay) :
    tdDays now ⟨d, 0⟩ = now.date.toDays - d.toDays := by
  have hP : (0 : Int) < usPerDay := by norm_num [usPerDay]
  have key : now.toUs - (DateTime.mk d 0).toUs
      = now.us + (now.date.toDays - d.toDays) * usPerDay := by
    simp only [DateTime.toUs]; ring
  rw [tdDays, key, Int.fdiv_eq_ediv _ (le_of_lt hP),
    Int.add_mul_ediv_right _ _ (ne_of_gt hP),
    Int.ediv_eq_zero_of_lt h0 h1, zero_add]

/-- C1 (amended): when `postedDate` parses, `age_days` is the floor of the
elapsed time from the parsed midnight instant to the run instant in whole
days, i.e. the run date minus the posted date — which is negative exactly
when the posted date lies in the future; when parsing fails the current
instant is substituted, giving `age_days = 0`.  (The claim's "never
negative" clause fails: there is no clamp, see the counterexample.) -/
theorem normalize_age_days_spec (now : DateTime) (raw : RawJob)
    (h0 : 0 ≤ now.us) (h1 : now.us < usPerDay) :
    (∀ d, parseIsoDate raw.post_date = some d →
      (normalize_job now raw).age_days = now.date.toDays - d.toDays
      ∧ ((normalize_job now raw).age_days < 0 ↔ now.date.toDays < d.toDays))
    ∧ (parseIsoDate raw.post_date = none → (normalize_job now raw).age_days = 0) := by
  constructor
  · intro d hd
    have hage : (normalize_job now raw).age_days = tdDays now ⟨d, 0⟩ := by
      simp [normalize_job, fromisoformat, hd]
    rw [hage, tdDays_date now d h0 h1]
    exact ⟨rfl, by omega⟩
  · intro hd
    simp [normalize_job, fromisoformat, hd, tdDays]

/-- C1 counterexample: a posting dated one day in the future parses
successfully, yet `normalize_job` produces `age_days = -1`, refuting the
claim that `age_days` is never negative. -/
theorem normalize_future_negative_age :
    parseIsoDate cRawFuture.post_date = some ⟨2025, 10, 13⟩
    ∧ (normalize_job cNow cRawFuture).age_days = -1 := by
  constructor <;> decide

theorem normalize_age_days_spec_witness :
    (normalize_job cNow cRawFuture).age_days
        = cNow.date.toDays - (Date.mk 2025 10 13).toDays
    ∧ ((normalize_job cNow cRawFuture).age_days < 0
        ↔ cNow.date.toDays < (Date.mk 2025 10 13).toDays) :=
  (normalize_age_days_spec cNow cRawFuture (by decide) (by decide)).1
    ⟨2025, 10, 13⟩ (by decide)

/-! ### Claim C5: enrichment idempotence -/

theorem extract_signals_eq (j : Job) :
    extract_signals j =
      { j with signals :=
          { j.signals with
            keywords := keywordVocab.filter (fun k => containsWordCI k (effText j))
            language_req := j.signals.language_req ++ extractFired (effText j) } } := by
  simp only [extract_signals, effText, extractFired]
  split_ifs <;> simp

theorem translate_job_eq (j : Job) :
    translate_job j =
      { j with
        description_en := some (effDesc j)
        source_meta := dictSet j.source_meta "translation_confidence"
          (.num (if j.needs_translation then
            (translate_to_en j.description_raw j.description_lang).2 else 1))
        signals :=
          { j.signals with
            keywords := keywordVocab.filter (fun k => containsWordCI k (postText j))
            language_req := j.signals.language_req ++ extractFired (postText j) } } := by
  by_cases h : j.needs_translation
  · simp only [translate_job, if_pos h, extract_signals_eq]
    simp [effText, effDesc, postText, if_pos h]
  · simp only [translate_job, if_neg h, extract_signals_eq]
    simp [effText, effDesc, postText, if_neg h]

/-- C5 (amended): re-running the signal derivation (`stage_translate`'s
`extract_signals` followed by `stage_enrich`) on an already-enriched Job
reproduces `keywords`, `companyType` and `englishOk` exactly, but appends a
second copy of the fired language-requirement markers to
`languageRequirements` (which is assigned by `append`, not overwritten), so
the full signals mapping is reproduced only when no language marker fires. -/
theorem tj_needs (k : Job) : (translate_job k).needs_translation = k.needs_translation := by
  rw [translate_job_eq]

theorem tj_raw (k : Job) : (translate_job k).description_raw = k.description_raw := by
  rw [translate_job_eq]

theorem tj_lang (k : Job) : (translate_job k).description_lang = k.description_lang := by
  rw [translate_job_eq]

theorem tj_company (k : Job) : (translate_job k).company = k.company := by
  rw [translate_job_eq]

theorem tj_keywords (k : Job) :
    (translate_job k).signals.keywords
      = keywordVocab.filter (fun w => containsWordCI w (postText k)) := by
  rw [translate_job_eq]

theorem tj_lr (k : Job) :
    (translate_job k).signals.language_req
      = k.signals.language_req ++ extractFired (postText k) := by
  rw [translate_job_eq]

theorem ej_keywords (k : Job) : (enrich_job k).signals.keywords = k.signals.keywords := rfl

theorem ej_lr (k : Job) : (enrich_job k).signals.language_req = k.signals.language_req := rfl

theorem ej_company (k : Job) : (enrich_job k).company = k.company := rfl

theorem ej_company_type (k : Job) :
    (enrich_job k).signals.company_type = some (classify_company_type k.company) := rfl

theorem ej_english (k : Job) : (enrich_job k).signals.english_ok = infer_english_ok k := rfl

theorem postText_tj (k : Job) : postText (translate_job k) = postText k := by
  simp [postText, effDesc, tj_needs, tj_raw, tj_lang]

theorem postText_ej (k : Job) : postText (enrich_job k) = postText k := by
  simp [postText, effDesc, enrich_job]

/-- C5 (amended): re-running the signal derivation (`stage_translate`'s
`extract_signals` followed by `stage_enrich`) on an already-enriched Job
reproduces `keywords`, `companyType` and `englishOk` exactly, but appends a
second copy of the fired language-requirement markers to
`languageRequirements` (which is updated by `append`, not overwritten), so
the full signals mapping is reproduced only when no language marker fires. -/
theorem enrich_idempotent_mod_language_req (j : Job) :
    (enrich_job (translate_job (enrich_job (translate_job j)))).signals.keywords
      = (enrich_job (translate_job j)).signals.keywords
    ∧ (enrich_job (translate_job (enrich_job (translate_job j)))).signals.company_type
      = (enrich_job (translate_job j)).signals.company_type
    ∧ (enrich_job (translate_job (enrich_job (translate_job j)))).signals.english_ok
      = (enrich_job (translate_job j)).signals.english_ok
    ∧ ∃ fired : List String,
        (enrich_job (translate_job j)).signals.language_req
          = j.signals.language_req ++ fired
        ∧ (enrich_job (translate_job (enrich_job (translate_job j)))).signals.language_req
          = (enrich_job (translate_job j)).signals.language_req ++ fired := by
  refine ⟨?_, ?_, ?_, ⟨extractFired (postText j), ?_, ?_⟩⟩
  · simp only [ej_keywords, tj_keywords, postText_ej, postText_tj]
  · simp only [ej_company_type, tj_company, ej_company]
  · simp only [ej_english, infer_english_ok, tj_lr, ej_lr, postText_ej, postText_tj]
    simp [List.mem_append]
  · simp only [ej_lr, tj_lr]
  · simp only [ej_lr, tj_lr, postText_ej, postText_tj]

/-- C5 counterexample: `cJobNorw` is a pipeline-produced, already-enriched
Job (its description carries a "Norwegian" requirement marker); re-running
the signal derivation changes its signals — `languageRequirements` becomes
`["Norwegian", "Norwegian"]` — refuting idempotence as claimed. -/
theorem enrich_rerun_changes_signals :
    (enrich_job (translate_job cJobNorw)).signals ≠ cJobNorw.signals
    ∧ (enrich_job (translate_job cJobNorw)).signals.language_req
        = ["Norwegian", "Norwegian"]
    ∧ cJobNorw.signals.language_req = ["Norwegian"] := by
  refine ⟨?_, ?_, ?_⟩ <;> decide

/-! ### Claim C4: skip-company scoring -/

theorem score_core_skip_shift (j : Job) (skip prio : List String)
    (h : j.company ∈ skip) :
    (score_core j skip prio).1 = (score_core j [] prio).1 - 10 := by
  simp only [score_core]
  simp only [h, if_true, List.not_mem_nil, if_false]
  ring

theorem score_core_skip_reason (j : Job) (skip prio : List String)
    (h : j.company ∈ skip) :
    "SKIP company" ∈ (score_core j skip prio).2 := by
  simp only [score_core]
  simp only [h, if_true]
  simp [List.mem_append]

theorem score_job_nonneg (j : Job) (skip prio : List String) :
    0 ≤ (score_job j skip prio).1 :=
  le_max_left 0 _

/-- C4 (amended): `score_job` never returns a negative value, and for a job
whose company is in the skip list and whose score without the skip penalty
would be 5.0, the final score is exactly 0.0 and "SKIP company" is recorded
among the reasons the scorer accumulates — though it can be missing from
the *returned* reasons list, which is capped at the first 3 entries (see
the counterexample). -/
theorem score_skip_floor_spec (j : Job) (skip prio : List String)
    (hskip : j.company ∈ skip) :
    (∀ (j' : Job) (s' p' : List String), 0 ≤ (score_job j' s' p').1)
    ∧ ((score_core j [] prio).1 = 5 →
        (score_job j skip prio).1 = 0
        ∧ "SKIP company" ∈ (score_core j skip prio).2) := by
  refine ⟨fun j' s' p' => score_job_nonneg j' s' p',
    fun h5 => ⟨?_, score_core_skip_reason j skip prio hskip⟩⟩
  simp only [score_job]
  rw [score_core_skip_shift j skip prio hskip, h5]
  norm_num

/-- C4 counterexample: a pipeline-produced job from "Acme" (title match,
senior hint, one skills keyword, stale posting) has pre-penalty score
exactly 5.0 and floored final score 0.0, but "SKIP company" is NOT in the
returned reasons list: three earlier factors fired and the list is capped
at 3 entries. -/
theorem score_skip_reason_truncated :
    cJobAcme.company ∈ ["Acme"]
    ∧ (score_core cJobAcme [] []).1 = 5
    ∧ (score_job cJobAcme ["Acme"] []).1 = 0
    ∧ "SKIP company" ∉ (score_job cJobAcme ["Acme"] []).2 := by
  have h1 : match_any cJobAcme.title
      ["Product Manager", "Senior Product Manager", "Product Owner"] = true := by decide
  have h2 : cJobAcme.signals.keywords = ["SQL"] := by decide
  have h3 : cJobAcme.signals.english_ok = none := by decide
  have h4 : seniorityMatch cJobAcme.seniority = true := by decide
  have h5 : cJobAcme.age_days = 11 := by decide
  have h6 : cJobAcme.company = "Acme" := by decide
  refine ⟨by simp [h6], ?_, ?_, by decide⟩
  · simp [score_core, h1, h2, h3, h4, h5, h6]
    norm_num
  · simp [score_job, score_core, h1, h2, h3, h4, h5, h6]
    norm_num

theorem score_skip_floor_spec_witness :
    (score_job cJobAcme ["Acme"] []).1 = 0
    ∧ "SKIP company" ∈ (score_core cJobAcme ["Acme"] []).2 := by
  have hbase : (score_core cJobAcme [] []).1 = 5 := by
    have h1 : match_any cJobAcme.title
        ["Product Manager", "Senior Product Manager", "Product Owner"] = true := by decide
    have h2 : cJobAcme.signals.keywords = ["SQL"] := by decide
    have h3 : cJobAcme.signals.english_ok = none := by decide
    have h4 : seniorityMatch cJobAcme.seniority = true := by decide
    have h5 : cJobAcme.age_days = 11 := by decide
    simp [score_core, h1, h2, h3, h4, h5]
    norm_num
  exact (score_skip_floor_spec cJobAcme ["Acme"] [] (by decide)).2 hbase

/-! ### Claim C2: seen-store semantics -/

theorem seenStep_other (today : String) (acc : SeenStore × List (String × Bool))
    (e : RankedEntry) (jid : String) (h : e.job_id ≠ jid) :
    dictGet (seenStep today acc e).1 jid = dictGet acc.1 jid
    ∧ dictGet (seenStep today acc e).2 jid = dictGet acc.2 jid := by
  unfold seenStep
  cases hg : dictGet acc.1 e.job_id <;> simp [dictGet_dictSet, h]

theorem seen_fold_notmem (today : String) (es : List RankedEntry) :
    ∀ (acc : SeenStore × List (String × Bool)) (jid : String),
      jid ∉ es.map (·.job_id) →
      dictGet (es.foldl (seenStep today) acc).1 jid = dictGet acc.1 jid
      ∧ dictGet (es.foldl (seenStep today) acc).2 jid = dictGet acc.2 jid := by
  induction es with
  | nil => intro acc jid _; exact ⟨rfl, rfl⟩
  | cons e t ih =>
    intro acc jid h
    simp only [List.map_cons, List.mem_cons, not_or] at h
    have hne : e.job_id ≠ jid := fun he => h.1 he.symm
    have h1 := seenStep_other today acc e jid hne
    rw [List.foldl_cons]
    have h2 := ih (seenStep today acc e) jid h.2
    exact ⟨h2.1.trans h1.1, h2.2.trans h1.2⟩

theorem seen_fold_first_seen (today : String) (es : List RankedEntry) :
    ∀ (acc : SeenStore × List (String × Bool)) (jid : String) (r : SeenRec),
      dictGet acc.1 jid = some r →
      ∃ r', dictGet (es.foldl (seenStep today) acc).1 jid = some r'
        ∧ r'.first_seen = r.first_seen := by
  induction es with
  | nil => intro acc jid r h; exact ⟨r, h, rfl⟩
  | cons e t ih =>
    intro acc jid r h
    rw [List.foldl_cons]
    by_cases he : e.job_id = jid
    · subst he
      have hstep : dictGet (seenStep today acc e).1 e.job_id
          = some { r with last_seen := today } := by
        unfold seenStep
        rw [h]
        simp [dictGet_dictSet]
      obtain ⟨r', hr', hfs⟩ := ih _ _ _ hstep
      exact ⟨r', hr', hfs⟩
    · exact ih _ jid r (by rw [(seenStep_other today acc e jid he).1]; exact h)

theorem seen_fold_entry (today : String) (es : List RankedEntry) :
    ∀ (acc : SeenStore × List (String × Bool)),
      (es.map (·.job_id)).Nodup → ∀ e ∈ es,
      (dictGet acc.1 e.job_id = none →
        dictGet (es.foldl (seenStep today) acc).1 e.job_id
          = some { first_seen := today, last_seen := today, url := e.url,
                   company := e.company, title := e.title }
        ∧ dictGet (es.foldl (seenStep today) acc).2 e.job_id = some true)
      ∧ (∀ r, dictGet acc.1 e.job_id = some r →
          dictGet (es.foldl (seenStep today) acc).1 e.job_id
            = some { r with last_seen := today }
          ∧ dictGet (es.foldl (seenStep today) acc).2 e.job_id = some false) := by
  induction es with
  | nil => intro acc _ e he; cases he
  | cons hd t ih =>
    intro acc hnd e he
    simp only [List.map_cons, List.nodup_cons] at hnd
    obtain ⟨hhd, hndt⟩ := hnd
    rw [List.foldl_cons]
    rcases List.mem_cons.mp he with he | he
    · subst he
      have hpres := seen_fold_notmem today t (seenStep today acc e) e.job_id hhd
      constructor
      · intro hnone
        have hs : seenStep today acc e =
            (dictSet acc.1 e.job_id
              { first_seen := today, last_seen := today, url := e.url,
                company := e.company, title := e.title },
             dictSet acc.2 e.job_id true) := by
          unfold seenStep; rw [hnone]
        rw [hpres.1, hpres.2, hs]
        constructor <;> simp [dictGet_dictSet]
      · intro r hr
        have hs : seenStep today acc e =
            (dictSet acc.1 e.job_id { r with last_seen := today },
             dictSet acc.2 e.job_id false) := by
          unfold seenStep; rw [hr]
        rw [hpres.1, hpres.2, hs]
        constructor <;> simp [dictGet_dictSet]
    · have hne : hd.job_id ≠ e.job_id := by
        intro hcontra
        exact hhd (hcontra ▸ List.mem_map_of_mem (·.job_id) he)
      have hacc := seenStep_other today acc hd e.job_id hne
      have hmain := ih (seenStep today acc hd) hndt e he
      constructor
      · intro hnone; exact hmain.1 (by rw [hacc.1]; exact hnone)
      · intro r hr; exact hmain.2 r (by rw [hacc.1]; exact hr)

/-- C2: for every ranked entry processed by `update_seen_store` (the
entries of one run carry distinct job ids, as the pipeline deduplicates on
`job_id` before ranking): an absent `jobID` gets a fresh record with
`first_seen = last_seen = today` and is flagged new; a present `jobID` has
only `last_seen` rewritten (all other fields, `first_seen` included,
unchanged) and is flagged not-new; ids not in the batch are untouched; and
across any number of subsequent runs the stored `first_seen` of a `jobID`
never changes. -/
theorem update_seen_store_spec (today : String) (entries : List RankedEntry)
    (store : SeenStore) (hnd : (entries.map (·.job_id)).Nodup) :
    (∀ e ∈ entries,
      (dictGet store e.job_id = none →
        dictGet (update_seen_store today entries store).1 e.job_id
          = some { first_seen := today, last_seen := today, url := e.url,
                   company := e.company, title := e.title }
        ∧ dictGet (update_seen_store today entries store).2 e.job_id = some true)
      ∧ (∀ r, dictGet store e.job_id = some r →
          dictGet (update_seen_store today entries store).1 e.job_id
            = some { r with last_seen := today }
          ∧ dictGet (update_seen_store today entries store).2 e.job_id = some false))
    ∧ (∀ jid, jid ∉ entries.map (·.job_id) →
        dictGet (update_seen_store today entries store).1 jid = dictGet store jid)
    ∧ (∀ (runs : List (String × List RankedEntry)) (jid : String) (r : SeenRec),
        dictGet store jid = some r →
        ∃ r', dictGet (runs.foldl (fun st p => (update_seen_store p.1 p.2 st).1) store) jid
            = some r' ∧ r'.first_seen = r.first_seen) := by
  refine ⟨?_, ?_, ?_⟩
  · intro e he
    exact seen_fold_entry today entries (store, []) hnd e he
  · intro jid h
    exact (seen_fold_notmem today entries (store, []) jid h).1
  · intro runs
    induction runs generalizing store with
    | nil => intro jid r h; exact ⟨r, h, rfl⟩
    | cons p t ih =>
      intro jid r h
      obtain ⟨r1, hr1, hfs1⟩ := seen_fold_first_seen p.1 p.2 (store, []) jid r h
      rw [List.foldl_cons]
      obtain ⟨r2, hr2, hfs2⟩ := ih (update_seen_store p.1 p.2 store).1 jid r1 hr1
      exact ⟨r2, hr2, hfs2.trans hfs1⟩

theorem update_seen_store_spec_witness :
    dictGet (update_seen_store "2025-10-12" [wRankedNew] wSeenStore).1 "fresh"
      = some { first_seen := "2025-10-12", last_seen := "2025-10-12", url := "u",
               company := "Co", title := "T" }
    ∧ dictGet (update_seen_store "2025-10-12" [wRankedNew] wSeenStore).2 "fresh"
      = some true := by
  have h := update_seen_store_spec "2025-10-12" [wRankedNew] wSeenStore (by decide)
  exact (h.1 wRankedNew (by simp)).1 (by decide)

/-! ### Claim C8: dedup semantics and identity collisions -/

theorem dedupGo_sublist (seen : List String) (l : List Job) :
    (dedupGo seen l).Sublist l := by
  induction l generalizing seen with
  | nil => simp [dedupGo]
  | cons x t ih =>
    simp only [dedupGo]
    by_cases hx : x.job_id ∈ seen
    · rw [if_pos hx]
      exact (ih seen).trans (List.sublist_cons_self x t)
    · rw [if_neg hx]
      exact (ih (x.job_id :: seen)).cons₂ x

theorem dedupGo_mem (seen : List String) (l : List Job) :
    ∀ j' ∈ dedupGo seen l,
      j'.job_id ∉ seen ∧ l.find? (fun x => x.job_id == j'.job_id) = some j' := by
  induction l generalizing seen with
  | nil => intro j' h; simp [dedupGo] at h
  | cons x t ih =>
    intro j' h
    simp only [dedupGo] at h
    by_cases hx : x.job_id ∈ seen
    · rw [if_pos hx] at h
      obtain ⟨hns, hfind⟩ := ih seen j' h
      have hne : (x.job_id == j'.job_id) = false := by
        simp only [beq_eq_false_iff_ne, ne_eq]
        intro heq
        exact hns (heq ▸ hx)
      refine ⟨hns, ?_⟩
      rw [List.find?_cons, hne, hfind]
    · rw [if_neg hx] at h
      rcases List.mem_cons.mp h with rfl | h'
      · exact ⟨hx, by rw [List.find?_cons, beq_self_eq_true]⟩
      · obtain ⟨hns, hfind⟩ := ih (x.job_id :: seen) j' h'
        have hne : (x.job_id == j'.job_id) = false := by
          simp only [beq_eq_false_iff_ne, ne_eq]
          intro heq
          exact hns (by rw [← heq]; exact List.mem_cons_self _ _)
        refine ⟨fun hs => hns (List.mem_cons_of_mem _ hs), ?_⟩
        rw [List.find?_cons, hne, hfind]

theorem dedupGo_ids_nodup (seen : List String) (l : List Job) :
    ((dedupGo seen l).map (·.job_id)).Nodup := by
  induction l generalizing seen with
  | nil => simp [dedupGo]
  | cons x t ih =>
    simp only [dedupGo]
    by_cases hx : x.job_id ∈ seen
    · rw [if_pos hx]; exact ih seen
    · rw [if_neg hx]
      simp only [List.map_cons, List.nodup_cons]
      refine ⟨?_, ih _⟩
      intro hmem
      obtain ⟨j', hj', hid⟩ := List.mem_map.mp hmem
      exact (dedupGo_mem _ _ j' hj').1 (by rw [hid]; exact List.mem_cons_self _ _)

theorem dedupGo_cover (seen : List String) (l : List Job) :
    ∀ j ∈ l, j.job_id ∉ seen → ∃ j' ∈ dedupGo seen l, j'.job_id = j.job_id := by
  induction l generalizing seen with
  | nil => intro j h; cases h
  | cons x t ih =>
    intro j hj hns
    simp only [dedupGo]
    by_cases hx : x.job_id ∈ seen
    · rw [if_pos hx]
      rcases List.mem_cons.mp hj with rfl | hj'
      · exact absurd hx hns
      · exact ih seen j hj' hns
    · rw [if_neg hx]
      rcases List.mem_cons.mp hj with rfl | hj'
      · exact ⟨j, List.mem_cons_self _ _, rfl⟩
      · by_cases he : j.job_id = x.job_id
        · exact ⟨x, List.mem_cons_self _ _, he.symm⟩
        · obtain ⟨j', hj'', hid⟩ := ih (x.job_id :: seen) j hj' (by simp [hns, he])
          exact ⟨j', List.mem_cons_of_mem _ hj'', hid⟩

theorem dedupGo_of_nodup (l : List Job) :
    ∀ seen, (l.map (·.job_id)).Nodup → (∀ j ∈ l, j.job_id ∉ seen) →
      dedupGo seen l = l := by
  induction l with
  | nil => intro seen _ _; rfl
  | cons x t ih =>
    intro seen hnd hdisj
    simp only [List.map_cons, List.nodup_cons] at hnd
    simp only [dedupGo]
    rw [if_neg (hdisj x (List.mem_cons_self _ _))]
    congr 1
    refine ih (x.job_id :: seen) hnd.2 ?_
    intro j hj
    simp only [List.mem_cons, not_or]
    refine ⟨?_, hdisj j (List.mem_cons_of_mem _ hj)⟩
    intro he
    exact hnd.1 (by rw [← he]; exact List.mem_map_of_mem (·.job_id) hj)

theorem append_colon_inj :
    ∀ (a1 : List Char) {b1 : List Char} (a2 : List Char) {b2 : List Char},
      ':' ∉ a1 → ':' ∉ a2 → a1 ++ ':' :: b1 = a2 ++ ':' :: b2 →
      a1 = a2 ∧ b1 = b2 := by
  intro a1
  induction a1 with
  | nil =>
    intro b1 a2 b2 _ h2 he
    cases a2 with
    | nil => simpa using he
    | cons c t =>
      exfalso
      simp only [List.nil_append, List.cons_append, List.cons.injEq] at he
      exact h2 (by rw [← he.1]; exact List.mem_cons_self _ _)
  | cons c t ih =>
    intro b1 a2 b2 h1 h2 he
    cases a2 with
    | nil =>
      exfalso
      simp only [List.nil_append, List.cons_append, List.cons.injEq] at he
      exact h1 (by rw [he.1]; exact List.mem_cons_self _ _)
    | cons c' t' =>
      simp only [List.cons_append, List.cons.injEq] at he
      obtain ⟨hc, hrest⟩ := he
      have h1' : ':' ∉ t := fun h => h1 (List.mem_cons_of_mem _ h)
      have h2' : ':' ∉ t' := fun h => h2 (List.mem_cons_of_mem _ h)
      obtain ⟨ht, hb⟩ := ih t' h1' h2' hrest
      exact ⟨by rw [hc, ht], hb⟩

theorem encode_inj (s1 i1 s2 i2 : String)
    (h1 : ':' ∉ s1.toList) (h2 : ':' ∉ s2.toList)
    (he : s1 ++ ":" ++ i1 = s2 ++ ":" ++ i2) : s1 = s2 ∧ i1 = i2 := by
  have hl : s1.toList ++ ':' :: i1.toList = s2.toList ++ ':' :: i2.toList := by
    have hd := congrArg String.data he
    simpa [String.data_append, List.append_assoc] using hd
  obtain ⟨ha, hb⟩ := append_colon_inj s1.toList s2.toList h1 h2 hl
  exact ⟨String.ext ha, String.ext hb⟩

/-- C8 (amended): `stage_dedup` keeps, in input order, exactly the first Job
bearing each `identityHash` (its output is a sublist of its input whose
entries are the `find?`-first occurrences, one per id, with no field
merging), deduplication is idempotent, and two postings with the same
title/company but different `(source, sourceID)` pairs are never
deduplicated against each other **provided** their colon-joined encodings
`source + ":" + sourceID` differ — which holds whenever the source names
are colon-free (true of every adapter of the program); for colon-bearing
sources two distinct pairs can collide (see the counterexample). -/
theorem stage_dedup_spec (l : List Job) (now : DateTime) (r1 r2 : RawJob)
    (h1 : ':' ∉ r1.source.toList) (h2 : ':' ∉ r2.source.toList)
    (hne : (r1.source, r1.source_job_id) ≠ (r2.source, r2.source_job_id)) :
    (stage_dedup l).1.Sublist l
    ∧ ((stage_dedup l).1.map (·.job_id)).Nodup
    ∧ (∀ j ∈ l, ∃ j' ∈ (stage_dedup l).1, j'.job_id = j.job_id)
    ∧ (∀ j' ∈ (stage_dedup l).1, l.find? (fun x => x.job_id == j'.job_id) = some j')
    ∧ (stage_dedup ((stage_dedup l).1)).1 = (stage_dedup l).1
    ∧ (normalize_job now r1).job_id ≠ (normalize_job now r2).job_id
    ∧ (stage_dedup [normalize_job now r1, normalize_job now r2]).1
        = [normalize_job now r1, normalize_job now r2] := by
  have hid : (normalize_job now r1).job_id ≠ (normalize_job now r2).job_id := by
    intro hcontra
    have henc : r1.source ++ ":" ++ r1.source_job_id
        = r2.source ++ ":" ++ r2.source_job_id := by
      simpa [normalize_job, sha256] using hcontra
    obtain ⟨hs, hi⟩ := encode_inj _ _ _ _ h1 h2 henc
    exact hne (by rw [hs, hi])
  refine ⟨dedupGo_sublist [] l, dedupGo_ids_nodup [] l, ?_, ?_, ?_, hid, ?_⟩
  · intro j hj
    exact dedupGo_cover [] l j hj (List.not_mem_nil _)
  · intro j' hj'
    exact (dedupGo_mem [] l j' hj').2
  · show dedupGo [] (dedupGo [] l) = dedupGo [] l
    exact dedupGo_of_nodup _ [] (dedupGo_ids_nodup [] l) (fun j _ => List.not_mem_nil _)
  · have hnotmem : (normalize_job now r2).job_id ∉ [(normalize_job now r1).job_id] := by
      simp only [List.mem_singleton]
      exact fun h => hid h.symm
    simp only [stage_dedup, dedupGo]
    rw [if_neg (List.not_mem_nil _), if_neg hnotmem]

/-- C8 counterexample: two raw postings with identical title and company and
distinct `(source, sourceID)` pairs — `("a:b", "c")` and `("a", "b:c")` —
produce the same identity hash (their colon-joined encodings coincide), and
`stage_dedup` drops the second, refuting "never deduplicated against each
other" as universally stated. -/
theorem dedup_colon_collision :
    (cRawColonA.source, cRawColonA.source_job_id)
      ≠ (cRawColonB.source, cRawColonB.source_job_id)
    ∧ cRawColonA.title = cRawColonB.title
    ∧ cRawColonA.company = cRawColonB.company
    ∧ (stage_dedup [normalize_job cNow cRawColonA, normalize_job cNow cRawColonB]).1
        = [normalize_job cNow cRawColonA] := by
  refine ⟨by decide, rfl, rfl, by decide⟩

theorem stage_dedup_spec_witness :
    (normalize_job cNow cRawFuture).job_id ≠ (normalize_job cNow cRawAcme).job_id
    ∧ (stage_dedup [normalize_job cNow cRawFuture, normalize_job cNow cRawAcme]).1
        = [normalize_job cNow cRawFuture, normalize_job cNow cRawAcme] := by
  have h := stage_dedup_spec [] cNow cRawFuture cRawAcme
    (by decide) (by decide) (by decide)
  exact ⟨h.2.2.2.2.2.1, h.2.2.2.2.2.2⟩

/-! ### Claim C6: language markers, englishOk and translation confidence -/

theorem lcContains_append_right (p a b : List Char) (h : lcContains p b = true) :
    lcContains p (a ++ b) = true := by
  induction a with
  | nil => simpa using h
  | cons c t ih =>
    simp only [List.cons_append, lcContains, Bool.or_eq_true]
    exact Or.inr ih

theorem containsCI_append_right (pat s t : String)
    (h : containsCI pat t = true) : containsCI pat (s ++ t) = true := by
  unfold containsCI at *
  have hsplit : (s ++ t).toList = s.toList ++ t.toList := rfl
  rw [hsplit]
  unfold lowerList
  rw [List.map_append]
  exact lcContains_append_right _ _ _ h

theorem tj_meta (k : Job) :
    (translate_job k).source_meta
      = dictSet k.source_meta "translation_confidence"
          (.num (if k.needs_translation then
            (translate_to_en k.description_raw k.description_lang).2 else 1)) := by
  rw [translate_job_eq]

theorem ej_meta (k : Job) : (enrich_job k).source_meta = k.source_meta := rfl

/-- C6 (amended): a posting whose description contains the
requirement token "Norwegian" (and no "English" token), with no language
hint, always ends with `englishOk = false`; it additionally undergoes the
0.6-confidence translation pass exactly when the language guesser detects
Norwegian (from the tokens å/ø/æ/Norsk/Norge) — otherwise the description
is carried over untranslated with confidence 1.0, because the requirement
token "Norwegian" is not part of the language-guess vocabulary (see the
counterexample). -/
theorem norwegian_marker_spec (now : DateTime) (raw : RawJob)
    (hN : containsCI "Norwegian" raw.description_raw = true)
    (hE : containsCI "English" raw.description_raw = false)
    (hl : raw.lang_guess = none) :
    (enrich_job (translate_job (normalize_job now raw))).signals.english_ok = some false
    ∧ (guess_lang raw.description_raw = "no" →
        dictGet (enrich_job (translate_job (normalize_job now raw))).source_meta
          "translation_confidence" = some (.num 0.6)
        ∧ (normalize_job now raw).needs_translation = true)
    ∧ (guess_lang raw.description_raw = "en" →
        dictGet (enrich_job (translate_job (normalize_job now raw))).source_meta
          "translation_confidence" = some (.num 1)
        ∧ (normalize_job now raw).needs_translation = false) := by
  have hraw : (normalize_job now raw).description_raw = raw.description_raw := by
    simp [normalize_job]
  have hlang : (normalize_job now raw).description_lang = guess_lang raw.description_raw := by
    simp [normalize_job, hl]
  have hneeds : (normalize_job now raw).needs_translation
      = decide (guess_lang raw.description_raw ≠ "en") := by
    simp [normalize_job, hl]
  have hT : containsCI "Norwegian" (postText (normalize_job now raw)) = true := by
    unfold postText
    by_cases hempty : effDesc (normalize_job now raw) = ""
    · rw [if_pos hempty, hraw]; exact hN
    · rw [if_neg hempty]
      unfold effDesc
      by_cases hnt : (normalize_job now raw).needs_translation
      · rw [if_pos hnt]
        unfold translate_to_en
        by_cases hen : (normalize_job now raw).description_lang = "en"
        · rw [if_pos hen]
          rw [hraw]; exact hN
        · rw [if_neg hen]
          exact containsCI_append_right _ _ _ (by rw [hraw]; exact hN)
      · rw [if_neg hnt, hraw]; exact hN
  have hfired : "Norwegian" ∈ extractFired (postText (normalize_job now raw)) := by
    simp [extractFired, hT]
  have hmem : "Norwegian" ∈ (translate_job (normalize_job now raw)).signals.language_req := by
    rw [tj_lr]
    exact List.mem_append.mpr (Or.inr hfired)
  refine ⟨?_, ?_, ?_⟩
  · rw [ej_english]
    simp [infer_english_ok, hmem]
  · intro hguess
    have hnt : (normalize_job now raw).needs_translation = true := by
      rw [hneeds, hguess]; decide
    refine ⟨?_, hnt⟩
    rw [ej_meta, tj_meta, hnt]
    simp only [if_true]
    rw [hraw, hlang, hguess]
    have hconf : (translate_to_en raw.description_raw "no").2 = 0.6 := by
      simp [translate_to_en]
    rw [hconf]
    simp [dictGet_dictSet]
  · intro hguess
    have hnt : (normalize_job now raw).needs_translation = false := by
      rw [hneeds, hguess]; decide
    refine ⟨?_, hnt⟩
    rw [ej_meta, tj_meta, hnt]
    simp [dictGet_dictSet]

/-- C6 counterexample: the posting "Norwegian skills required." carries the
non-default-language requirement marker and no English marker, and indeed
ends with `englishOk = false` — but it does NOT undergo a translation pass:
the guesser's vocabulary (å/ø/æ/Norsk/Norge) does not match the token
"Norwegian", so `needs_translation` is false and the recorded confidence is
1.0, not 0.6, refuting the claim. -/
theorem english_ok_without_translation_pass :
    containsCI "Norwegian" cRawNorw.description_raw = true
    ∧ containsCI "English" cRawNorw.description_raw = false
    ∧ cRawNorw.lang_guess = none
    ∧ cJobNorw.signals.english_ok = some false
    ∧ cJobNorw.needs_translation = false
    ∧ dictGet cJobNorw.source_meta "translation_confidence" = some (.num 1) := by
  have hnt : (normalize_job cNow cRawNorw).needs_translation = false := by decide
  refine ⟨by decide, by decide, rfl, by decide, by decide, ?_⟩
  show dictGet (enrich_job (translate_job (normalize_job cNow cRawNorw))).source_meta
      "translation_confidence" = some (.num 1)
  rw [ej_meta, tj_meta, hnt]
  simp [dictGet_dictSet]

theorem norwegian_marker_spec_witness :
    (enrich_job (translate_job (normalize_job cNow cRawNorsk))).signals.english_ok
      = some false
    ∧ dictGet (enrich_job (translate_job (normalize_job cNow cRawNorsk))).source_meta
        "translation_confidence" = some (.num 0.6) := by
  have h := norwegian_marker_spec cNow cRawNorsk (by decide) (by decide) rfl
  exact ⟨h.1, (h.2.1 (by decide)).1⟩

/-! ### Claim C7: rank ordering and determinism -/

theorem tenths_add {a b : ℚ} (ha : tenths a) (hb : tenths b) : tenths (a + b) := by
  obtain ⟨m, rfl⟩ := ha
  obtain ⟨n, rfl⟩ := hb
  exact ⟨m + n, by push_cast; ring⟩

theorem tenths_sub {a b : ℚ} (ha : tenths a) (hb : tenths b) : tenths (a - b) := by
  obtain ⟨m, rfl⟩ := ha
  obtain ⟨n, rfl⟩ := hb
  exact ⟨m - n, by push_cast; ring⟩

theorem tenths_ite (c : Prop) [Decidable c] {a b : ℚ}
    (ha : tenths a) (hb : tenths b) : tenths (if c then a else b) := by
  split
  · exact ha
  · exact hb

theorem score_core_tenths (j : Job) (skip prio : List String) :
    tenths (score_core j skip prio).1 := by
  have h0 : tenths 0 := ⟨0, by norm_num⟩
  have h3 : tenths 3 := ⟨30, by norm_num⟩
  have h25 : tenths 2.5 := ⟨25, by norm_num⟩
  have h15 : tenths 1.5 := ⟨15, by norm_num⟩
  have h1 : tenths 1 := ⟨10, by norm_num⟩
  have h10 : tenths 10 := ⟨100, by norm_num⟩
  have h05 : tenths 0.5 := ⟨5, by norm_num⟩
  have h08 : tenths 0.8 := ⟨8, by norm_num⟩
  simp only [score_core]
  exact tenths_add
    (tenths_add
      (tenths_sub
        (tenths_add
          (tenths_add
            (tenths_add
              (tenths_add (tenths_add h0 (tenths_ite _ h3 h0)) (tenths_ite _ h25 h0))
              (tenths_ite _ h15 h0))
            (tenths_ite _ h1 h0))
          (tenths_ite _ h1 h0))
        (tenths_ite _ h10 h0))
      (tenths_ite _ h05 h0))
    (tenths_ite _ h15 (tenths_ite _ h08 h0))

theorem score_job_tenths (j : Job) (skip prio : List String) :
    tenths (score_job j skip prio).1 := by
  simp only [score_job]
  rcases max_choice 0 (score_core j skip prio).1 with h | h <;> rw [h]
  · exact ⟨0, by norm_num⟩
  · exact score_core_tenths j skip prio

theorem round2_tenths {q : ℚ} (h : tenths q) : round2 q = q := by
  obtain ⟨k, rfl⟩ := h
  unfold round2
  have h3 : (k : ℚ) / 10 * 100 = ((k * 10 : ℤ) : ℚ) := by push_cast; ring
  rw [h3, round_intCast]
  push_cast
  ring

/-- C7: `stage_rank` outputs entries sorted by descending score, with score
ties broken by descending canonical posted date; and re-running Rank
followed by Select on the same inputs produces an identical ordered output
(the model is a pure function of its inputs, mirroring Python's
deterministic stable sort on the key `(score, post_date)` with
`reverse=True`). -/
theorem stage_rank_sorted_deterministic (jobs : List Job) (prefs : Prefs) (top_n : Nat) :
    ((stage_rank jobs prefs).1).Sorted (fun a b =>
        b.score < a.score ∨ (b.score = a.score ∧ b.post_date ≤ a.post_date))
    ∧ stage_select (stage_rank jobs prefs).1 top_n
        = stage_select (stage_rank jobs prefs).1 top_n := by
  refine ⟨?_, rfl⟩
  show ((stage_rank jobs prefs).1).Pairwise _
  simp only [stage_rank]
  rw [List.pairwise_map]
  have hs : List.Pairwise rankRel
      ((jobs.map fun j =>
        (j, score_job j prefs.skip_companies prefs.priority_companies)).insertionSort
          rankRel) :=
    List.sorted_insertionSort rankRel _
  refine List.Pairwise.imp_of_mem ?_ hs
  intro a b ha hb hr
  have hmem : ∀ x ∈ (jobs.map fun j =>
      (j, score_job j prefs.skip_companies prefs.priority_companies)).insertionSort
        rankRel, tenths x.2.1 := by
    intro x hx
    have hx' := (List.perm_insertionSort rankRel _).mem_iff.mp hx
    obtain ⟨j, _, rfl⟩ := List.mem_map.mp hx'
    exact score_job_tenths j _ _
  have ha10 := hmem a ha
  have hb10 := hmem b hb
  have hr' := (Prod.Lex.le_iff (a := (b.2.1, b.1.post_date))
    (b := (a.2.1, a.1.post_date))).mp hr
  simp only [toRankedEntry]
  rw [round2_tenths ha10, round2_tenths hb10]
  exact hr'

/-! ### Claim C10: quiet-hours guard and persistence of the empty run -/

/-- C10: when the local hour at run start is at or past `QUIET_AFTER_HOUR`,
`run_pipeline` returns empty final and ranked lists with only the guard log
line — independently of whatever the fetch stage would have produced, i.e.
no pipeline stage runs — yet `cmd_run` still persists: the calendar day's
JSON snapshot and CSV export are (over)written keyed by that day with an
empty jobs list and zero stats, while the seen-store and ATS files are
rewritten exactly as they were, with no record added. -/
theorem quiet_hours_run_spec (now : DateTime) (fetched : List RawJob × List String)
    (prefs : Prefs) (top_n : Nat) (fs : FS) (hq : QUIET_AFTER_HOUR ≤ now.hour) :
    run_pipeline now fetched prefs top_n
      = ([], ["[LOG][Dhruva][Guard] skipped – quiet window"], [])
    ∧ dictGet (cmd_run now fetched prefs top_n fs).snapshots now.date.iso
        = some { run_id := now.date.iso, generated_at := now_local_iso now,
                 stats_final := 0, stats_new_today := 0, jobs := [],
                 logs := ["[LOG][Dhruva][Guard] skipped – quiet window"] }
    ∧ dictGet (cmd_run now fetched prefs top_n fs).csvs now.date.iso = some []
    ∧ (cmd_run now fetched prefs top_n fs).seenFile = fs.seenFile
    ∧ (cmd_run now fetched prefs top_n fs).atsFile = fs.atsFile := by
  have hrp : run_pipeline now fetched prefs top_n
      = ([], ["[LOG][Dhruva][Guard] skipped – quiet window"], []) := by
    unfold run_pipeline
    rw [if_pos hq]
  have hcr : cmd_run now fetched prefs top_n fs
      = persist_outputs now [] [] ["[LOG][Dhruva][Guard] skipped – quiet window"] fs := by
    unfold cmd_run
    rw [hrp]
  refine ⟨hrp, ?_, ?_, ?_, ?_⟩ <;> rw [hcr] <;>
    simp [persist_outputs, update_seen_store, dictGet_dictSet]

theorem quiet_hours_run_spec_witness :
    run_pipeline wNowQuiet ([], []) {} 10
      = ([], ["[LOG][Dhruva][Guard] skipped – quiet window"], [])
    ∧ dictGet (cmd_run wNowQuiet ([], []) {} 10 wFsEmpty).snapshots wNowQuiet.date.iso
        = some { run_id := wNowQuiet.date.iso, generated_at := now_local_iso wNowQuiet,
                 stats_final := 0, stats_new_today := 0, jobs := [],
                 logs := ["[LOG][Dhruva][Guard] skipped – quiet window"] }
    ∧ dictGet (cmd_run wNowQuiet ([], []) {} 10 wFsEmpty).csvs wNowQuiet.date.iso
        = some []
    ∧ (cmd_run wNowQuiet ([], []) {} 10 wFsEmpty).seenFile = wFsEmpty.seenFile
    ∧ (cmd_run wNowQuiet ([], []) {} 10 wFsEmpty).atsFile = wFsEmpty.atsFile :=
  quiet_hours_run_spec wNowQuiet ([], []) {} 10 wFsEmpty (by decide)
